import Mathlib

/-!
Verification development for the uspto-odp Go client library.

Strings are modelled as lists of Unicode code points (`List Nat`); Go's
byte-length computations only ever occur on ASCII digit strings, where
byte count and code-point count coincide.  Character classes from the
Go source (`regexp` character classes, `unicode.IsSpace`,
`strings.TrimSpace`) are modelled by decidable predicates on code
points.  Machine integers (`int`, `int32`) are modelled as `Int` with
explicit range checks where the source can overflow.
-/

namespace Odp

/-- Convenience: the code points of a string literal. -/
def str (s : String) : List Nat := s.data.map Char.toNat

/-- Go regexp `\d` (RE2): the ASCII decimal digits `0`-`9`. -/
def isDigitC (c : Nat) : Bool := decide (48 ≤ c ∧ c ≤ 57)

/-- Go regexp `\s` (RE2): `[\t\n\f\r ]`. -/
def isReSpace (c : Nat) : Bool := decide (c = 9 ∨ c = 10 ∨ c = 12 ∨ c = 13 ∨ c = 32)

/-- Go `unicode.IsSpace`: the White_Space code points (used by
`strings.TrimSpace` and by `fmt`'s scanner). -/
def isUniSpace (c : Nat) : Bool :=
  decide (c = 9 ∨ c = 10 ∨ c = 11 ∨ c = 12 ∨ c = 13 ∨ c = 32 ∨ c = 133 ∨ c = 160 ∨
    c = 5760 ∨ (8192 ≤ c ∧ c ≤ 8202) ∨ c = 8232 ∨ c = 8233 ∨ c = 8239 ∨ c = 8287 ∨ c = 12288)

/-- Go `strings.TrimSpace`: drop leading and trailing White_Space. -/
def trimSpace (s : List Nat) : List Nat :=
  (((s.dropWhile isUniSpace).reverse).dropWhile isUniSpace).reverse

/-- Character class of Go regexp `[,\s]`. -/
def isCommaSpace (c : Nat) : Bool := c == 44 || isReSpace c

/-- Character class of Go regexp `[/,\s]`. -/
def isSlashCommaSpace (c : Nat) : Bool := c == 47 || c == 44 || isReSpace c

/-- Go regexp `[A-Z]`. -/
def isUpperC (c : Nat) : Bool := decide (65 ≤ c ∧ c ≤ 90)

/-- Consume exactly `n` characters matching `\d`, returning the digits and
the rest of the input (the regexp piece `\d{n}`). -/
def takeDigits : Nat → List Nat → Option (List Nat × List Nat)
  | 0, s => some ([], s)
  | _ + 1, [] => none
  | n + 1, c :: s =>
    if isDigitC c then
      match takeDigits n s with
      | some (g, r) => some (c :: g, r)
      | none => none
    else none

/-- The regexp piece `(?:US)?` at the start of all four patterns: the two
characters `US`, consumed when present.  (Committing to the prefix is
equivalent to RE2's behaviour here: when the input starts with `U`, the
only way any of the patterns can match is by consuming `US`, since `U`
belongs to none of the following character classes.) -/
def dropCountryUS (s : List Nat) : List Nat :=
  match s with
  | 85 :: 83 :: rest => rest
  | _ => s

/-- The regexp piece `[\s]+` followed by nothing the class overlaps with:
at least one `\s` character, maximal munch. -/
def dropReSpacesPlus (s : List Nat) : Option (List Nat) :=
  match s with
  | c :: rest => if isReSpace c then some (rest.dropWhile isReSpace) else none
  | [] => none

/-- Tail `[,\s]*(\d{3})[,\s]*(\d{3})[\s]+[A-Z]\d$` of the
grant-with-kind-code pattern, after the leading digit group.  All the
separator runs end at characters outside their classes, so maximal
munch is equivalent to RE2 matching. -/
def grantKindTail (s : List Nat) : Option (List Nat × List Nat) :=
  match takeDigits 3 (s.dropWhile isCommaSpace) with
  | none => none
  | some (g2, s1) =>
    match takeDigits 3 (s1.dropWhile isCommaSpace) with
    | none => none
    | some (g3, s2) =>
      match dropReSpacesPlus s2 with
      | none => none
      | some s3 =>
        match s3 with
        | [u, d] => if isUpperC u && isDigitC d then some (g2, g3) else none
        | _ => none

/-- Go `grantWithKindPattern`:
`^(?:US)?[\s]*(\d{1,2})[,\s]*(\d{3})[,\s]*(\d{3})[\s]+[A-Z]\d$`.
The only choice point is the greedy `\d{1,2}`; two digits are tried
first, then one, exactly as RE2's leftmost-greedy submatching does. -/
def matchGrantWithKind (s : List Nat) : Option (List Nat × List Nat × List Nat) :=
  let s0 := (dropCountryUS s).dropWhile isReSpace
  match takeDigits 2 s0 with
  | some (g1, rest) =>
    match grantKindTail rest with
    | some (g2, g3) => some (g1, g2, g3)
    | none =>
      match takeDigits 1 s0 with
      | some (g1, rest) =>
        match grantKindTail rest with
        | some (g2, g3) => some (g1, g2, g3)
        | none => none
      | none => none
  | none =>
    match takeDigits 1 s0 with
    | some (g1, rest) =>
      match grantKindTail rest with
      | some (g2, g3) => some (g1, g2, g3)
      | none => none
    | none => none

/-- Go `applicationWithSlashPattern`:
`^(?:US)?[\s]*(\d{2})/(\d{3})[,\s]*(\d{3})$`. -/
def matchApplicationWithSlash (s : List Nat) : Option (List Nat × List Nat × List Nat) :=
  let s0 := (dropCountryUS s).dropWhile isReSpace
  match takeDigits 2 s0 with
  | none => none
  | some (g1, s1) =>
    match s1 with
    | 47 :: s2 =>
      match takeDigits 3 s2 with
      | none => none
      | some (g2, s3) =>
        match takeDigits 3 (s3.dropWhile isCommaSpace) with
        | none => none
        | some (g3, s4) => if s4 = [] then some (g1, g2, g3) else none
    | _ => none

/-- Tail `,(\d{3}),(\d{3})$` of the grant-with-comma pattern. -/
def grantCommaTail (s : List Nat) : Option (List Nat × List Nat) :=
  match s with
  | 44 :: s1 =>
    match takeDigits 3 s1 with
    | none => none
    | some (g2, s2) =>
      match s2 with
      | 44 :: s3 =>
        match takeDigits 3 s3 with
        | none => none
        | some (g3, s4) => if s4 = [] then some (g2, g3) else none
      | _ => none
  | _ => none

/-- Go `grantWithCommaPattern`: `^(?:US)?[\s]*(\d{1,2}),(\d{3}),(\d{3})$`.
Greedy `\d{1,2}`: two digits tried first, then one. -/
def matchGrantWithComma (s : List Nat) : Option (List Nat × List Nat × List Nat) :=
  let s0 := (dropCountryUS s).dropWhile isReSpace
  match takeDigits 2 s0 with
  | some (g1, rest) =>
    match grantCommaTail rest with
    | some (g2, g3) => some (g1, g2, g3)
    | none =>
      match takeDigits 1 s0 with
      | some (g1, rest) =>
        match grantCommaTail rest with
        | some (g2, g3) => some (g1, g2, g3)
        | none => none
      | none => none
  | none =>
    match takeDigits 1 s0 with
    | some (g1, rest) =>
      match grantCommaTail rest with
      | some (g2, g3) => some (g1, g2, g3)
      | none => none
    | none => none

/-- Go `publicationPattern`:
`^(?:US)?[\s]*(\d{4})[/,\s]*(\d{7})(?:\s*[A-Z]\d)?$`. -/
def matchPublication (s : List Nat) : Option (List Nat × List Nat) :=
  let s0 := (dropCountryUS s).dropWhile isReSpace
  match takeDigits 4 s0 with
  | none => none
  | some (g1, s1) =>
    match takeDigits 7 (s1.dropWhile isSlashCommaSpace) with
    | none => none
    | some (g2, s2) =>
      match s2 with
      | [] => some (g1, g2)
      | _ =>
        match s2.dropWhile isReSpace with
        | [u, d] => if isUpperC u && isDigitC d then some (g1, g2) else none
        | _ => none

/-- Go `digitsOnlyPattern`: `^\d+$`. -/
def digitsOnly (s : List Nat) : Bool := !s.isEmpty && s.all isDigitC

/-- Go `PatentNumberType`. -/
inductive PatentNumberType where
  | unknown
  | application
  | grant
  | publication
deriving DecidableEq, Repr

/-- Go `PatentNumber` (field `Type` is spelt `type` here). -/
structure PatentNumber where
  original : List Nat
  normalized : List Nat
  applicationNo : List Nat
  type : PatentNumberType
  country : List Nat
deriving DecidableEq, Repr

/-- The errors `NormalizePatentNumber` can return (its three distinct
`fmt.Errorf` constructions). -/
inductive NormError where
  | emptyInput
  | invalidLength (n : Nat)
  | unrecognizedFormat
deriving DecidableEq, Repr

/-- Go `NormalizePatentNumber` (patents.go).  The patterns are tried in
the source's order: grant-with-kind, application-with-slash,
grant-with-comma, publication, then the digits-only fallback. -/
def NormalizePatentNumber (input : List Nat) : Except NormError PatentNumber :=
  if input = [] then .error .emptyInput
  else
    let cleaned := trimSpace input
    match matchGrantWithKind cleaned with
    | some (g1, g2, g3) =>
      .ok { original := input, normalized := g1 ++ (g2 ++ g3), applicationNo := [],
            type := .grant, country := str "US" }
    | none =>
      match matchApplicationWithSlash cleaned with
      | some (g1, g2, g3) =>
        .ok { original := input, normalized := g1 ++ (g2 ++ g3),
              applicationNo := g1 ++ (g2 ++ g3), type := .application, country := str "US" }
      | none =>
        match matchGrantWithComma cleaned with
        | some (g1, g2, g3) =>
          .ok { original := input, normalized := g1 ++ (g2 ++ g3), applicationNo := [],
                type := .grant, country := str "US" }
        | none =>
          match matchPublication cleaned with
          | some (g1, g2) =>
            .ok { original := input, normalized := g1 ++ g2, applicationNo := [],
                  type := .publication, country := str "US" }
          | none =>
            if digitsOnly cleaned then
              if cleaned.length = 7 then
                .ok { original := input, normalized := cleaned, applicationNo := [],
                      type := .grant, country := str "US" }
              else if cleaned.length = 8 ∨ cleaned.length = 9 then
                .ok { original := input, normalized := cleaned, applicationNo := cleaned,
                      type := .application, country := str "US" }
              else if cleaned.length = 11 then
                .ok { original := input, normalized := cleaned, applicationNo := [],
                      type := .publication, country := str "US" }
              else .error (.invalidLength cleaned.length)
            else .error .unrecognizedFormat

/-- Go `PatentNumber.ToApplicationNumber`. -/
def ToApplicationNumber (pn : PatentNumber) : List Nat :=
  if pn.applicationNo ≠ [] then pn.applicationNo else pn.normalized

theorem takeDigits_eq {n : Nat} {s g r : List Nat} (h : takeDigits n s = some (g, r)) :
    g.length = n ∧ (∀ c ∈ g, isDigitC c = true) ∧ s = g ++ r := by
  induction n generalizing s g r with
  | zero =>
    simp only [takeDigits, Option.some.injEq, Prod.mk.injEq] at h
    obtain ⟨h1, h2⟩ := h
    subst h1; subst h2; simp
  | succ n ih =>
    cases s with
    | nil => simp [takeDigits] at h
    | cons c t =>
      rw [takeDigits] at h
      split at h
      · split at h
        · next g' r' heq =>
          simp only [Option.some.injEq, Prod.mk.injEq] at h
          obtain ⟨h1, h2⟩ := h
          subst h1; subst h2
          obtain ⟨hl, hd, hs⟩ := ih heq
          refine ⟨by simp [hl], ?_, by simp [hs]⟩
          intro x hx
          rcases List.mem_cons.mp hx with rfl | hx
          · assumption
          · exact hd x hx
        · exact absurd h (by simp)
      · exact absurd h (by simp)

theorem takeDigits_all {n : Nat} {s : List Nat} (hd : ∀ c ∈ s, isDigitC c = true)
    (hn : n ≤ s.length) : takeDigits n s = some (s.take n, s.drop n) := by
  induction n generalizing s with
  | zero => simp [takeDigits]
  | succ n ih =>
    cases s with
    | nil => simp at hn
    | cons c t =>
      rw [takeDigits, if_pos (hd c (by simp))]
      rw [ih (fun x hx => hd x (by simp [hx])) (by simpa using hn)]
      simp

theorem takeDigits_short {n : Nat} {s : List Nat} (hn : s.length < n) :
    takeDigits n s = none := by
  induction n generalizing s with
  | zero => simp at hn
  | succ n ih =>
    cases s with
    | nil => rfl
    | cons c t =>
      rw [takeDigits]
      split
      · rw [ih (by simpa using hn)]
      · rfl

theorem dropWhile_eq_self {p : Nat → Bool} {l : List Nat} (h : ∀ c ∈ l, p c = false) :
    l.dropWhile p = l := by
  cases l with
  | nil => rfl
  | cons c t => simp [List.dropWhile_cons, h c (by simp)]

theorem digit_classes {c : Nat} (h : isDigitC c = true) :
    isReSpace c = false ∧ isUniSpace c = false ∧ isCommaSpace c = false ∧
    isSlashCommaSpace c = false ∧ isUpperC c = false ∧ c ≠ 44 ∧ c ≠ 47 ∧ c ≠ 85 := by
  simp only [isDigitC, decide_eq_true_eq] at h
  simp only [isReSpace, isUniSpace, isCommaSpace, isSlashCommaSpace, isUpperC,
    Bool.or_eq_false_iff, beq_eq_false_iff_ne, ne_eq, decide_eq_false_iff_not]
  omega

theorem dropCountryUS_digits {s : List Nat} (h : ∀ c ∈ s, isDigitC c = true) :
    dropCountryUS s = s := by
  unfold dropCountryUS
  split
  · next rest =>
    exact absurd (h 85 (by simp)) (by decide)
  · rfl

theorem grantKindTail_eq {s g2 g3 : List Nat} (h : grantKindTail s = some (g2, g3)) :
    g2.length = 3 ∧ g3.length = 3 ∧ (∀ c ∈ g2, isDigitC c = true) ∧
    (∀ c ∈ g3, isDigitC c = true) := by
  unfold grantKindTail at h
  split at h
  · exact absurd h (by simp)
  · next a b heq1 =>
    split at h
    · exact absurd h (by simp)
    · next a2 b2 heq2 =>
      split at h
      · exact absurd h (by simp)
      · split at h
        · split at h
          · simp only [Option.some.injEq, Prod.mk.injEq] at h
            obtain ⟨h1, h2⟩ := h
            subst h1; subst h2
            obtain ⟨l1, d1, -⟩ := takeDigits_eq heq1
            obtain ⟨l2, d2, -⟩ := takeDigits_eq heq2
            exact ⟨l1, l2, d1, d2⟩
          · exact absurd h (by simp)
        · exact absurd h (by simp)

theorem grantKindTail_digits {s : List Nat} (h : ∀ c ∈ s, isDigitC c = true) :
    grantKindTail s = none := by
  have hdw : s.dropWhile isCommaSpace = s :=
    dropWhile_eq_self (fun c hc => (digit_classes (h c hc)).2.2.1)
  rcases htd : takeDigits 3 s with _ | ⟨g, r⟩
  · simp [grantKindTail, hdw, htd]
  · obtain ⟨-, -, hs⟩ := takeDigits_eq htd
    have hr : ∀ c ∈ r, isDigitC c = true := fun c hc => h c (by rw [hs]; simp [hc])
    have hdw2 : r.dropWhile isCommaSpace = r :=
      dropWhile_eq_self (fun c hc => (digit_classes (hr c hc)).2.2.1)
    rcases htd2 : takeDigits 3 r with _ | ⟨g2, r2⟩
    · simp [grantKindTail, hdw, htd, hdw2, htd2]
    · obtain ⟨-, -, hs2⟩ := takeDigits_eq htd2
      have hr2 : ∀ c ∈ r2, isDigitC c = true := fun c hc => hr c (by rw [hs2]; simp [hc])
      cases r2 with
      | nil => simp [grantKindTail, hdw, htd, hdw2, htd2, dropReSpacesPlus]
      | cons c t =>
        have hcsp : isReSpace c = false := (digit_classes (hr2 c (by simp))).1
        simp [grantKindTail, hdw, htd, hdw2, htd2, dropReSpacesPlus, hcsp]

theorem matchGrantWithKind_eq {s g1 g2 g3 : List Nat}
    (h : matchGrantWithKind s = some (g1, g2, g3)) :
    (g1.length = 1 ∨ g1.length = 2) ∧ g2.length = 3 ∧ g3.length = 3 ∧
    (∀ c ∈ g1, isDigitC c = true) ∧ (∀ c ∈ g2, isDigitC c = true) ∧
    (∀ c ∈ g3, isDigitC c = true) := by
  simp only [matchGrantWithKind] at h
  split at h
  · next a rest heq =>
    split at h
    · next heq2 =>
      simp only [Option.some.injEq, Prod.mk.injEq] at h
      obtain ⟨h1, h2, h3⟩ := h
      subst h1; subst h2; subst h3
      obtain ⟨l1, d1, -⟩ := takeDigits_eq heq
      obtain ⟨l2, l3, d2, d3⟩ := grantKindTail_eq heq2
      exact ⟨Or.inr l1, l2, l3, d1, d2, d3⟩
    · split at h
      · next a2 rest2 heqb =>
        split at h
        · next heq2 =>
          simp only [Option.some.injEq, Prod.mk.injEq] at h
          obtain ⟨h1, h2, h3⟩ := h
          subst h1; subst h2; subst h3
          obtain ⟨l1, d1, -⟩ := takeDigits_eq heqb
          obtain ⟨l2, l3, d2, d3⟩ := grantKindTail_eq heq2
          exact ⟨Or.inl l1, l2, l3, d1, d2, d3⟩
        · exact absurd h (by simp)
      · exact absurd h (by simp)
  · split at h
    · next a2 rest2 heqb =>
      split at h
      · next heq2 =>
        simp only [Option.some.injEq, Prod.mk.injEq] at h
        obtain ⟨h1, h2, h3⟩ := h
        subst h1; subst h2; subst h3
        obtain ⟨l1, d1, -⟩ := takeDigits_eq heqb
        obtain ⟨l2, l3, d2, d3⟩ := grantKindTail_eq heq2
        exact ⟨Or.inl l1, l2, l3, d1, d2, d3⟩
      · exact absurd h (by simp)
    · exact absurd h (by simp)

theorem matchApplicationWithSlash_eq {s g1 g2 g3 : List Nat}
    (h : matchApplicationWithSlash s = some (g1, g2, g3)) :
    g1.length = 2 ∧ g2.length = 3 ∧ g3.length = 3 ∧
    (∀ c ∈ g1, isDigitC c = true) ∧ (∀ c ∈ g2, isDigitC c = true) ∧
    (∀ c ∈ g3, isDigitC c = true) := by
  simp only [matchApplicationWithSlash] at h
  split at h
  · exact absurd h (by simp)
  · next a s1 heq1 =>
    split at h
    · next s2 =>
      split at h
      · exact absurd h (by simp)
      · next b s3 heq2 =>
        split at h
        · exact absurd h (by simp)
        · next c s4 heq3 =>
          split at h
          · simp only [Option.some.injEq, Prod.mk.injEq] at h
            obtain ⟨h1, h2, h3⟩ := h
            subst h1; subst h2; subst h3
            obtain ⟨l1, d1, -⟩ := takeDigits_eq heq1
            obtain ⟨l2, d2, -⟩ := takeDigits_eq heq2
            obtain ⟨l3, d3, -⟩ := takeDigits_eq heq3
            exact ⟨l1, l2, l3, d1, d2, d3⟩
          · exact absurd h (by simp)
    · exact absurd h (by simp)

theorem grantCommaTail_eq {s g2 g3 : List Nat} (h : grantCommaTail s = some (g2, g3)) :
    g2.length = 3 ∧ g3.length = 3 ∧ (∀ c ∈ g2, isDigitC c = true) ∧
    (∀ c ∈ g3, isDigitC c = true) := by
  unfold grantCommaTail at h
  split at h
  · next s1 =>
    split at h
    · exact absurd h (by simp)
    · next a s2 heq1 =>
      split at h
      · next s3 =>
        split at h
        · exact absurd h (by simp)
        · next b s4 heq2 =>
          split at h
          · simp only [Option.some.injEq, Prod.mk.injEq] at h
            obtain ⟨h1, h2⟩ := h
            subst h1; subst h2
            obtain ⟨l1, d1, -⟩ := takeDigits_eq heq1
            obtain ⟨l2, d2, -⟩ := takeDigits_eq heq2
            exact ⟨l1, l2, d1, d2⟩
          · exact absurd h (by simp)
      · exact absurd h (by simp)
  · exact absurd h (by simp)

theorem matchGrantWithComma_eq {s g1 g2 g3 : List Nat}
    (h : matchGrantWithComma s = some (g1, g2, g3)) :
    (g1.length = 1 ∨ g1.length = 2) ∧ g2.length = 3 ∧ g3.length = 3 ∧
    (∀ c ∈ g1, isDigitC c = true) ∧ (∀ c ∈ g2, isDigitC c = true) ∧
    (∀ c ∈ g3, isDigitC c = true) := by
  simp only [matchGrantWithComma] at h
  split at h
  · next a rest heq =>
    split at h
    · next heq2 =>
      simp only [Option.some.injEq, Prod.mk.injEq] at h
      obtain ⟨h1, h2, h3⟩ := h
      subst h1; subst h2; subst h3
      obtain ⟨l1, d1, -⟩ := takeDigits_eq heq
      obtain ⟨l2, l3, d2, d3⟩ := grantCommaTail_eq heq2
      exact ⟨Or.inr l1, l2, l3, d1, d2, d3⟩
    · split at h
      · next a2 rest2 heqb =>
        split at h
        · next heq2 =>
          simp only [Option.some.injEq, Prod.mk.injEq] at h
          obtain ⟨h1, h2, h3⟩ := h
          subst h1; subst h2; subst h3
          obtain ⟨l1, d1, -⟩ := takeDigits_eq heqb
          obtain ⟨l2, l3, d2, d3⟩ := grantCommaTail_eq heq2
          exact ⟨Or.inl l1, l2, l3, d1, d2, d3⟩
        · exact absurd h (by simp)
      · exact absurd h (by simp)
  · split at h
    · next a2 rest2 heqb =>
      split at h
      · next heq2 =>
        simp only [Option.some.injEq, Prod.mk.injEq] at h
        obtain ⟨h1, h2, h3⟩ := h
        subst h1; subst h2; subst h3
        obtain ⟨l1, d1, -⟩ := takeDigits_eq heqb
        obtain ⟨l2, l3, d2, d3⟩ := grantCommaTail_eq heq2
        exact ⟨Or.inl l1, l2, l3, d1, d2, d3⟩
      · exact absurd h (by simp)
    · exact absurd h (by simp)

theorem matchPublication_eq {s g1 g2 : List Nat}
    (h : matchPublication s = some (g1, g2)) :
    g1.length = 4 ∧ g2.length = 7 ∧ (∀ c ∈ g1, isDigitC c = true) ∧
    (∀ c ∈ g2, isDigitC c = true) := by
  simp only [matchPublication] at h
  split at h
  · exact absurd h (by simp)
  · next a s1 heq1 =>
    split at h
    · exact absurd h (by simp)
    · next b s2 heq2 =>
      obtain ⟨l1, d1, -⟩ := takeDigits_eq heq1
      obtain ⟨l2, d2, -⟩ := takeDigits_eq heq2
      split at h
      · simp only [Option.some.injEq, Prod.mk.injEq] at h
        obtain ⟨h1, h2⟩ := h
        subst h1; subst h2
        exact ⟨l1, l2, d1, d2⟩
      · split at h
        · split at h
          · simp only [Option.some.injEq, Prod.mk.injEq] at h
            obtain ⟨h1, h2⟩ := h
            subst h1; subst h2
            exact ⟨l1, l2, d1, d2⟩
          · exact absurd h (by simp)
        · exact absurd h (by simp)

theorem grantCommaTail_digits {s : List Nat} (h : ∀ c ∈ s, isDigitC c = true) :
    grantCommaTail s = none := by
  cases s with
  | nil => rfl
  | cons c t =>
    have : c ≠ 44 := (digit_classes (h c (by simp))).2.2.2.2.2.1
    unfold grantCommaTail
    split
    · next heq => exact absurd (List.cons.injEq .. ▸ heq) (by simp [this])
    · rfl

theorem digits_matchGrantWithKind_none {s : List Nat} (h : ∀ c ∈ s, isDigitC c = true) :
    matchGrantWithKind s = none := by
  have h0 : dropCountryUS s = s := dropCountryUS_digits h
  have h1 : s.dropWhile isReSpace = s :=
    dropWhile_eq_self (fun c hc => (digit_classes (h c hc)).1)
  simp only [matchGrantWithKind, h0, h1]
  rcases h2 : takeDigits 2 s with _ | ⟨g, r⟩
  · rcases h3 : takeDigits 1 s with _ | ⟨g', r'⟩
    · rfl
    · obtain ⟨-, -, hs⟩ := takeDigits_eq h3
      have : ∀ c ∈ r', isDigitC c = true := fun c hc => h c (by rw [hs]; simp [hc])
      simp [grantKindTail_digits this]
  · obtain ⟨-, -, hs⟩ := takeDigits_eq h2
    have hr : ∀ c ∈ r, isDigitC c = true := fun c hc => h c (by rw [hs]; simp [hc])
    rcases h3 : takeDigits 1 s with _ | ⟨g', r'⟩
    · simp [grantKindTail_digits hr]
    · obtain ⟨-, -, hs'⟩ := takeDigits_eq h3
      have hr' : ∀ c ∈ r', isDigitC c = true := fun c hc => h c (by rw [hs']; simp [hc])
      simp [grantKindTail_digits hr, grantKindTail_digits hr']

theorem digits_matchGrantWithComma_none {s : List Nat} (h : ∀ c ∈ s, isDigitC c = true) :
    matchGrantWithComma s = none := by
  have h0 : dropCountryUS s = s := dropCountryUS_digits h
  have h1 : s.dropWhile isReSpace = s :=
    dropWhile_eq_self (fun c hc => (digit_classes (h c hc)).1)
  simp only [matchGrantWithComma, h0, h1]
  rcases h2 : takeDigits 2 s with _ | ⟨g, r⟩
  · rcases h3 : takeDigits 1 s with _ | ⟨g', r'⟩
    · rfl
    · obtain ⟨-, -, hs⟩ := takeDigits_eq h3
      have : ∀ c ∈ r', isDigitC c = true := fun c hc => h c (by rw [hs]; simp [hc])
      simp [grantCommaTail_digits this]
  · obtain ⟨-, -, hs⟩ := takeDigits_eq h2
    have hr : ∀ c ∈ r, isDigitC c = true := fun c hc => h c (by rw [hs]; simp [hc])
    rcases h3 : takeDigits 1 s with _ | ⟨g', r'⟩
    · simp [grantCommaTail_digits hr]
    · obtain ⟨-, -, hs'⟩ := takeDigits_eq h3
      have hr' : ∀ c ∈ r', isDigitC c = true := fun c hc => h c (by rw [hs']; simp [hc])
      simp [grantCommaTail_digits hr, grantCommaTail_digits hr']

theorem digits_matchApplicationWithSlash_none {s : List Nat}
    (h : ∀ c ∈ s, isDigitC c = true) : matchApplicationWithSlash s = none := by
  have h0 : dropCountryUS s = s := dropCountryUS_digits h
  have h1 : s.dropWhile isReSpace = s :=
    dropWhile_eq_self (fun c hc => (digit_classes (h c hc)).1)
  simp only [matchApplicationWithSlash, h0, h1]
  rcases h2 : takeDigits 2 s with _ | ⟨g, r⟩
  · rfl
  · obtain ⟨-, -, hs⟩ := takeDigits_eq h2
    cases hr : r with
    | nil => simp
    | cons c t =>
      have : c ≠ 47 := by
        have : isDigitC c = true := h c (by rw [hs, hr]; simp)
        exact (digit_classes this).2.2.2.2.2.2.1
      simp only []
      split
      · next heq => exact absurd (List.cons.injEq .. ▸ heq) (by simp [this])
      · rfl

theorem digits_matchPublication_eleven {s : List Nat} (h : ∀ c ∈ s, isDigitC c = true)
    (hlen : s.length = 11) : matchPublication s = some (s.take 4, s.drop 4) := by
  have h0 : dropCountryUS s = s := dropCountryUS_digits h
  have h1 : s.dropWhile isReSpace = s :=
    dropWhile_eq_self (fun c hc => (digit_classes (h c hc)).1)
  have h4 : takeDigits 4 s = some (s.take 4, s.drop 4) := takeDigits_all h (by omega)
  have hdrop : ∀ c ∈ s.drop 4, isDigitC c = true := fun c hc => h c (List.mem_of_mem_drop hc)
  have h5 : (s.drop 4).dropWhile isSlashCommaSpace = s.drop 4 :=
    dropWhile_eq_self (fun c hc => (digit_classes (hdrop c hc)).2.2.2.1)
  have hlen7 : (s.drop 4).length = 7 := by simp [hlen]
  have h7 : takeDigits 7 (s.drop 4) = some ((s.drop 4).take 7, (s.drop 4).drop 7) :=
    takeDigits_all hdrop (by omega)
  have htake : (s.drop 4).take 7 = s.drop 4 := List.take_of_length_le (by omega)
  have hdrop7 : (s.drop 4).drop 7 = [] := List.drop_eq_nil_of_le (by omega)
  simp [matchPublication, h0, h1, h4, h5, h7, htake, hdrop7]

theorem digits_matchPublication_none {s : List Nat} (h : ∀ c ∈ s, isDigitC c = true)
    (hlen : s.length ≠ 11) : matchPublication s = none := by
  have h0 : dropCountryUS s = s := dropCountryUS_digits h
  have h1 : s.dropWhile isReSpace = s :=
    dropWhile_eq_self (fun c hc => (digit_classes (h c hc)).1)
  simp only [matchPublication, h0, h1]
  by_cases h4len : s.length < 4
  · simp [takeDigits_short h4len]
  · have h4 : takeDigits 4 s = some (s.take 4, s.drop 4) := takeDigits_all h (by omega)
    have hdrop : ∀ c ∈ s.drop 4, isDigitC c = true := fun c hc => h c (List.mem_of_mem_drop hc)
    have h5 : (s.drop 4).dropWhile isSlashCommaSpace = s.drop 4 :=
      dropWhile_eq_self (fun c hc => (digit_classes (hdrop c hc)).2.2.2.1)
    rw [h4]
    simp only [h5]
    by_cases h7len : s.length < 11
    · have : (s.drop 4).length < 7 := by simp; omega
      simp [takeDigits_short this]
    · have h7 : takeDigits 7 (s.drop 4) = some ((s.drop 4).take 7, (s.drop 4).drop 7) :=
        takeDigits_all hdrop (by simp; omega)
      rw [h7]
      have hrest : (s.drop 4).drop 7 = s.drop 11 := by simp
      have hlen11 : (s.drop 11).length = s.length - 11 := by simp
      have hd11 : ∀ c ∈ s.drop 11, isDigitC c = true := fun c hc => h c (List.mem_of_mem_drop hc)
      rw [hrest]
      cases h11 : s.drop 11 with
      | nil =>
        exfalso
        have := congrArg List.length h11
        simp at this
        omega
      | cons c t =>
        have hcd : isDigitC c = true := hd11 c (by rw [h11]; simp)
        have hcs : isReSpace c = false := (digit_classes hcd).1
        have hdw : (c :: t).dropWhile isReSpace = c :: t :=
          dropWhile_eq_self (fun x hx => (digit_classes (hd11 x (h11 ▸ hx))).1)
        simp only [hdw]
        cases t with
        | nil => simp
        | cons d t2 =>
          cases t2 with
          | nil =>
            have : isUpperC c = false := (digit_classes hcd).2.2.2.2.1
            simp [this]
          | cons e t3 => simp

theorem trimSpace_digits {s : List Nat} (h : ∀ c ∈ s, isDigitC c = true) :
    trimSpace s = s := by
  have h1 : s.dropWhile isUniSpace = s :=
    dropWhile_eq_self (fun c hc => (digit_classes (h c hc)).2.1)
  have h2 : s.reverse.dropWhile isUniSpace = s.reverse :=
    dropWhile_eq_self (fun c hc => (digit_classes (h c (List.mem_reverse.mp hc))).2.1)
  simp [trimSpace, h1, h2]

/-- The invariants every successful result of `NormalizePatentNumber`
satisfies (shared between several theorems below). -/
@[reducible] def NormInv (input : List Nat) (pn : PatentNumber) : Prop :=
  pn.original = input ∧ pn.country = str "US" ∧ pn.normalized ≠ [] ∧
  (∀ c ∈ pn.normalized, isDigitC c = true) ∧
  (pn.type = .application → pn.applicationNo = pn.normalized ∧
    (pn.normalized.length = 8 ∨ pn.normalized.length = 9)) ∧
  (pn.type = .publication → pn.normalized.length = 11) ∧
  (pn.type = .grant → (pn.normalized.length = 7 ∨ pn.normalized.length = 8)) ∧
  ((pn.type = .grant ∨ pn.type = .publication) → pn.applicationNo = [])

theorem normInv_grant {input g1 g2 g3 : List Nat} (hl1 : g1.length = 1 ∨ g1.length = 2)
    (hl2 : g2.length = 3) (hl3 : g3.length = 3)
    (hd1 : ∀ c ∈ g1, isDigitC c = true) (hd2 : ∀ c ∈ g2, isDigitC c = true)
    (hd3 : ∀ c ∈ g3, isDigitC c = true) :
    NormInv input ⟨input, g1 ++ (g2 ++ g3), [], .grant, str "US"⟩ := by
  refine ⟨rfl, rfl, ?_, ?_, ?_, ?_, ?_, ?_⟩
  · show g1 ++ (g2 ++ g3) ≠ []
    intro hnil
    have := congrArg List.length hnil
    simp only [List.length_append, List.length_nil] at this
    omega
  · show ∀ c ∈ g1 ++ (g2 ++ g3), isDigitC c = true
    intro c hc
    rcases List.mem_append.mp hc with h1 | h23
    · exact hd1 c h1
    · rcases List.mem_append.mp h23 with h2 | h3
      · exact hd2 c h2
      · exact hd3 c h3
  · intro happ
    exact absurd (show PatentNumberType.grant = .application from happ) (by decide)
  · intro hpub
    exact absurd (show PatentNumberType.grant = .publication from hpub) (by decide)
  · intro _
    show (g1 ++ (g2 ++ g3)).length = 7 ∨ (g1 ++ (g2 ++ g3)).length = 8
    simp only [List.length_append, hl2, hl3]
    rcases hl1 with h1 | h1 <;> rw [h1] <;> omega
  · intro _; rfl

theorem normInv_application {input g1 g2 g3 : List Nat} (hl1 : g1.length = 2)
    (hl2 : g2.length = 3) (hl3 : g3.length = 3)
    (hd1 : ∀ c ∈ g1, isDigitC c = true) (hd2 : ∀ c ∈ g2, isDigitC c = true)
    (hd3 : ∀ c ∈ g3, isDigitC c = true) :
    NormInv input
      ⟨input, g1 ++ (g2 ++ g3), g1 ++ (g2 ++ g3), .application, str "US"⟩ := by
  refine ⟨rfl, rfl, ?_, ?_, ?_, ?_, ?_, ?_⟩
  · show g1 ++ (g2 ++ g3) ≠ []
    intro hnil
    have := congrArg List.length hnil
    simp only [List.length_append, List.length_nil] at this
    omega
  · show ∀ c ∈ g1 ++ (g2 ++ g3), isDigitC c = true
    intro c hc
    rcases List.mem_append.mp hc with h1 | h23
    · exact hd1 c h1
    · rcases List.mem_append.mp h23 with h2 | h3
      · exact hd2 c h2
      · exact hd3 c h3
  · intro _
    refine ⟨rfl, Or.inl ?_⟩
    show (g1 ++ (g2 ++ g3)).length = 8
    simp only [List.length_append, hl1, hl2, hl3]
  · intro hpub
    exact absurd (show PatentNumberType.application = .publication from hpub) (by decide)
  · intro hg
    exact absurd (show PatentNumberType.application = .grant from hg) (by decide)
  · intro hor
    rcases hor with hg | hpub
    · exact absurd (show PatentNumberType.application = .grant from hg) (by decide)
    · exact absurd (show PatentNumberType.application = .publication from hpub) (by decide)

theorem normInv_publication {input g1 g2 : List Nat} (hl1 : g1.length = 4)
    (hl2 : g2.length = 7)
    (hd1 : ∀ c ∈ g1, isDigitC c = true) (hd2 : ∀ c ∈ g2, isDigitC c = true) :
    NormInv input ⟨input, g1 ++ g2, [], .publication, str "US"⟩ := by
  refine ⟨rfl, rfl, ?_, ?_, ?_, ?_, ?_, ?_⟩
  · show g1 ++ g2 ≠ []
    intro hnil
    have := congrArg List.length hnil
    simp only [List.length_append, List.length_nil] at this
    omega
  · show ∀ c ∈ g1 ++ g2, isDigitC c = true
    intro c hc
    rcases List.mem_append.mp hc with h1 | h2
    · exact hd1 c h1
    · exact hd2 c h2
  · intro happ
    exact absurd (show PatentNumberType.publication = .application from happ) (by decide)
  · intro _
    show (g1 ++ g2).length = 11
    simp only [List.length_append, hl1, hl2]
  · intro hg
    exact absurd (show PatentNumberType.publication = .grant from hg) (by decide)
  · intro _; rfl

theorem normInv_fallback_grant {input c7 : List Nat} (hlen : c7.length = 7)
    (hd : ∀ c ∈ c7, isDigitC c = true) :
    NormInv input ⟨input, c7, [], .grant, str "US"⟩ := by
  refine ⟨rfl, rfl, ?_, hd, ?_, ?_, ?_, ?_⟩
  · show c7 ≠ []
    intro hnil
    rw [hnil] at hlen
    simp at hlen
  · intro happ
    exact absurd (show PatentNumberType.grant = .application from happ) (by decide)
  · intro hpub
    exact absurd (show PatentNumberType.grant = .publication from hpub) (by decide)
  · intro _; exact Or.inl hlen
  · intro _; rfl

theorem normInv_fallback_application {input c89 : List Nat}
    (hlen : c89.length = 8 ∨ c89.length = 9) (hd : ∀ c ∈ c89, isDigitC c = true) :
    NormInv input ⟨input, c89, c89, .application, str "US"⟩ := by
  refine ⟨rfl, rfl, ?_, hd, ?_, ?_, ?_, ?_⟩
  · show c89 ≠ []
    intro hnil
    rw [hnil] at hlen
    simp at hlen
  · intro _; exact ⟨rfl, hlen⟩
  · intro hpub
    exact absurd (show PatentNumberType.application = .publication from hpub) (by decide)
  · intro hg
    exact absurd (show PatentNumberType.application = .grant from hg) (by decide)
  · intro hor
    rcases hor with hg | hpub
    · exact absurd (show PatentNumberType.application = .grant from hg) (by decide)
    · exact absurd (show PatentNumberType.application = .publication from hpub) (by decide)

theorem normInv_fallback_publication {input c11 : List Nat} (hlen : c11.length = 11)
    (hd : ∀ c ∈ c11, isDigitC c = true) :
    NormInv input ⟨input, c11, [], .publication, str "US"⟩ := by
  refine ⟨rfl, rfl, ?_, hd, ?_, ?_, ?_, ?_⟩
  · show c11 ≠ []
    intro hnil
    rw [hnil] at hlen
    simp at hlen
  · intro happ
    exact absurd (show PatentNumberType.publication = .application from happ) (by decide)
  · intro _; exact hlen
  · intro hg
    exact absurd (show PatentNumberType.publication = .grant from hg) (by decide)
  · intro _; rfl

theorem normalize_ok_spec {input : List Nat} {pn : PatentNumber}
    (h : NormalizePatentNumber input = .ok pn) : NormInv input pn := by
  simp only [NormalizePatentNumber] at h
  split at h
  · exact absurd h (by simp)
  · split at h
    · next g1 g2 g3 heq =>
      rw [Except.ok.injEq] at h
      subst h
      obtain ⟨hl1, hl2, hl3, hd1, hd2, hd3⟩ := matchGrantWithKind_eq heq
      exact normInv_grant hl1 hl2 hl3 hd1 hd2 hd3
    · split at h
      · next g1 g2 g3 heq =>
        rw [Except.ok.injEq] at h
        subst h
        obtain ⟨hl1, hl2, hl3, hd1, hd2, hd3⟩ := matchApplicationWithSlash_eq heq
        exact normInv_application hl1 hl2 hl3 hd1 hd2 hd3
      · split at h
        · next g1 g2 g3 heq =>
          rw [Except.ok.injEq] at h
          subst h
          obtain ⟨hl1, hl2, hl3, hd1, hd2, hd3⟩ := matchGrantWithComma_eq heq
          exact normInv_grant hl1 hl2 hl3 hd1 hd2 hd3
        · split at h
          · next g1 g2 heq =>
            rw [Except.ok.injEq] at h
            subst h
            obtain ⟨hl1, hl2, hd1, hd2⟩ := matchPublication_eq heq
            exact normInv_publication hl1 hl2 hd1 hd2
          · split at h
            · next hdo =>
              have hdig : ∀ c ∈ trimSpace input, isDigitC c = true := by
                simp only [digitsOnly, Bool.and_eq_true, List.all_eq_true] at hdo
                exact hdo.2
              split at h
              · next h7 =>
                rw [Except.ok.injEq] at h
                subst h
                exact normInv_fallback_grant h7 hdig
              · split at h
                · next h89 =>
                  rw [Except.ok.injEq] at h
                  subst h
                  exact normInv_fallback_application h89 hdig
                · split at h
                  · next h11 =>
                    rw [Except.ok.injEq] at h
                    subst h
                    exact normInv_fallback_publication h11 hdig
                  · exact absurd h (by simp)
            · exact absurd h (by simp)

theorem normalize_digits_fallback {input : List Nat} (hne : input ≠ [])
    (hd : ∀ c ∈ input, isDigitC c = true) :
    NormalizePatentNumber input =
      (if input.length = 7 then
        .ok ⟨input, input, [], .grant, str "US"⟩
      else if input.length = 8 ∨ input.length = 9 then
        .ok ⟨input, input, input, .application, str "US"⟩
      else if input.length = 11 then
        .ok ⟨input, input, [], .publication, str "US"⟩
      else .error (.invalidLength input.length)) := by
  have hts : trimSpace input = input := trimSpace_digits hd
  have hdo : digitsOnly input = true := by
    simp only [digitsOnly, Bool.and_eq_true, List.all_eq_true]
    exact ⟨by simpa using hne, hd⟩
  simp only [NormalizePatentNumber, if_neg hne, hts, digits_matchGrantWithKind_none hd,
    digits_matchApplicationWithSlash_none hd, digits_matchGrantWithComma_none hd]
  by_cases h11 : input.length = 11
  · simp only [digits_matchPublication_eleven hd h11, List.take_append_drop]
    rw [if_neg (show ¬input.length = 7 by omega),
      if_neg (show ¬(input.length = 8 ∨ input.length = 9) by omega), if_pos h11]
  · rw [digits_matchPublication_none hd h11, hdo]
    rfl

/-- C1: every successful result of `NormalizePatentNumber` has a non-empty
all-digit `normalized`; `applicationNo = normalized` for Application
results; Publication results have exactly 11 digits; Grant results have 7
or 8 digits; and `applicationNo` is empty for Grant and Publication
results. -/
theorem C1_normalized_invariants (input : List Nat) (pn : PatentNumber)
    (h : NormalizePatentNumber input = .ok pn) :
    pn.normalized ≠ [] ∧ (∀ c ∈ pn.normalized, isDigitC c = true) ∧
    (pn.type = .application → pn.applicationNo = pn.normalized) ∧
    (pn.type = .publication → pn.normalized.length = 11) ∧
    (pn.type = .grant → (pn.normalized.length = 7 ∨ pn.normalized.length = 8)) ∧
    ((pn.type = .grant ∨ pn.type = .publication) → pn.applicationNo = []) := by
  obtain ⟨-, -, h3, h4, h5, h6, h7, h8⟩ := normalize_ok_spec h
  exact ⟨h3, h4, fun ha => (h5 ha).1, h6, h7, h8⟩

theorem C1_normalized_invariants_witness :
    let pn : PatentNumber := ⟨str "9123456", str "9123456", [], .grant, str "US"⟩
    pn.normalized ≠ [] ∧ (∀ c ∈ pn.normalized, isDigitC c = true) ∧
    (pn.type = .application → pn.applicationNo = pn.normalized) ∧
    (pn.type = .publication → pn.normalized.length = 11) ∧
    (pn.type = .grant → (pn.normalized.length = 7 ∨ pn.normalized.length = 8)) ∧
    ((pn.type = .grant ∨ pn.type = .publication) → pn.applicationNo = []) :=
  C1_normalized_invariants (str "9123456")
    ⟨str "9123456", str "9123456", [], .grant, str "US"⟩ (by rfl)

/-- C3: on trimmed all-digit input, `NormalizePatentNumber` classifies by
digit count: 7 digits give a Grant; 8 or 9 digits give an Application
whose `applicationNo` is the digits; 11 digits give a Publication (via the
publication pattern, which matches exactly the 11-digit all-digit inputs);
any other length fails with the invalid-length error.  In particular
normalizing the 8-digit `11646472` yields an Application. -/
theorem C3_digit_count_fallback (input : List Nat) (hne : input ≠ [])
    (hd : ∀ c ∈ input, isDigitC c = true) :
    (input.length = 7 →
      NormalizePatentNumber input = .ok ⟨input, input, [], .grant, str "US"⟩) ∧
    (input.length = 8 ∨ input.length = 9 →
      NormalizePatentNumber input = .ok ⟨input, input, input, .application, str "US"⟩) ∧
    (input.length = 11 →
      NormalizePatentNumber input = .ok ⟨input, input, [], .publication, str "US"⟩) ∧
    (input.length ≠ 7 ∧ input.length ≠ 8 ∧ input.length ≠ 9 ∧ input.length ≠ 11 →
      NormalizePatentNumber input = .error (.invalidLength input.length)) ∧
    NormalizePatentNumber (str "11646472") =
      .ok ⟨str "11646472", str "11646472", str "11646472", .application, str "US"⟩ := by
  rw [normalize_digits_fallback hne hd]
  refine ⟨?_, ?_, ?_, ?_, by rfl⟩
  · intro h7
    rw [if_pos h7]
  · intro h89
    rw [if_neg (by omega), if_pos h89]
  · intro h11
    rw [if_neg (by omega), if_neg (by omega), if_pos h11]
  · intro ⟨h7, h8, h9, h11⟩
    rw [if_neg h7, if_neg (by omega), if_neg h11]

theorem C3_digit_count_fallback_witness :
    NormalizePatentNumber (str "9123456") =
      .ok ⟨str "9123456", str "9123456", [], .grant, str "US"⟩ :=
  (C3_digit_count_fallback (str "9123456") (by decide) (by decide)).1 (by decide)

/-- C9: every successful result of `NormalizePatentNumber` carries
`country = "US"` and `original` equal to the exact, untrimmed input. -/
theorem C9_original_and_country (input : List Nat) (pn : PatentNumber)
    (h : NormalizePatentNumber input = .ok pn) :
    pn.country = str "US" ∧ pn.original = input := by
  obtain ⟨h1, h2, -⟩ := normalize_ok_spec h
  exact ⟨h2, h1⟩

theorem C9_original_and_country_witness :
    let pn : PatentNumber :=
      ⟨str " US 11,646,472 B2 ", str "11646472", [], .grant, str "US"⟩
    pn.country = str "US" ∧ pn.original = str " US 11,646,472 B2 " :=
  C9_original_and_country (str " US 11,646,472 B2 ")
    ⟨str " US 11,646,472 B2 ", str "11646472", [], .grant, str "US"⟩ (by rfl)

/-- C10: every successful `NormalizePatentNumber` result of kind
Application has a `normalized` value of exactly 8 or 9 digits. -/
theorem C10_application_length (input : List Nat) (pn : PatentNumber)
    (h : NormalizePatentNumber input = .ok pn) (happ : pn.type = .application) :
    pn.normalized.length = 8 ∨ pn.normalized.length = 9 := by
  obtain ⟨-, -, -, -, h5, -⟩ := normalize_ok_spec h
  exact (h5 happ).2

theorem C10_application_length_witness :
    (str "17/248,024" : List Nat).length = 10 ∧
    ((⟨str "17/248,024", str "17248024", str "17248024", .application, str "US"⟩ :
        PatentNumber).normalized.length = 8 ∨
      (⟨str "17/248,024", str "17248024", str "17248024", .application, str "US"⟩ :
        PatentNumber).normalized.length = 9) :=
  ⟨by decide,
    C10_application_length (str "17/248,024")
      ⟨str "17/248,024", str "17248024", str "17248024", .application, str "US"⟩
      (by rfl) (by rfl)⟩

/-- One record of the search response: the only field the resolvers read
is `ApplicationNumberText` (a nullable string in the generated type). -/
structure PatentRecord where
  applicationNumberText : Option (List Nat)
deriving DecidableEq

/-- The search response, restricted to the field the resolvers read:
`PatentFileWrapperDataBag`, a nullable list of records. -/
structure PatentDataResponse where
  patentFileWrapperDataBag : Option (List PatentRecord)
deriving DecidableEq

/-- One call issued to the search capability: the arguments of
`Client.SearchPatents` (query, offset, limit). -/
structure SearchCall where
  query : List Nat
  offset : Int
  limit : Int
deriving DecidableEq

/-- The external search capability (`Client.SearchPatents` as seen by the
resolvers): query, offset and limit to either a response or a failure
(`none`, covering transport errors and non-200 statuses). -/
def SearchCap : Type := List Nat → Int → Int → Option PatentDataResponse

/-- The errors the resolution functions in client.go can return, one
constructor per distinct `fmt.Errorf` construction. -/
inductive ResolveError where
  | invalidPatentNumber (e : NormError)
  | searchFailed
  | notFound (n : List Nat)
  | malformedResponse (n : List Nat)
  | unknownType
deriving DecidableEq

/-- The query string built by `resolveGrantToApplicationNumber`. -/
def grantSearchQuery (grantNumber : List Nat) : List Nat :=
  str "applicationMetaData.patentNumber:" ++ grantNumber

/-- The query string built by `resolvePublicationToApplicationNumber`. -/
def publicationSearchQuery (formattedPub : List Nat) : List Nat :=
  str "applicationMetaData.earliestPublicationNumber:" ++ formattedPub

/-- Go `Client.resolveGrantToApplicationNumber` (client.go).  The second
component records the calls made to the search capability. -/
def resolveGrantToApplicationNumber (search : SearchCap) (grantNumber : List Nat) :
    Except ResolveError (List Nat) × List SearchCall :=
  let query := grantSearchQuery grantNumber
  let calls := [SearchCall.mk query 0 1]
  match search query 0 1 with
  | none => (.error .searchFailed, calls)
  | some result =>
    match result.patentFileWrapperDataBag with
    | none => (.error (.notFound grantNumber), calls)
    | some [] => (.error (.notFound grantNumber), calls)
    | some (patent :: _) =>
      match patent.applicationNumberText with
      | none => (.error (.malformedResponse grantNumber), calls)
      | some t => (.ok t, calls)

/-- Go `Client.resolvePublicationToApplicationNumber` (client.go). -/
def resolvePublicationToApplicationNumber (search : SearchCap)
    (publicationNumber : List Nat) : Except ResolveError (List Nat) × List SearchCall :=
  let formattedPub :=
    if publicationNumber.length == 11 && !((str "US").isPrefixOf publicationNumber) then
      str "US" ++ publicationNumber ++ str "A1"
    else publicationNumber
  let query := publicationSearchQuery formattedPub
  let calls := [SearchCall.mk query 0 1]
  match search query 0 1 with
  | none => (.error .searchFailed, calls)
  | some result =>
    match result.patentFileWrapperDataBag with
    | none => (.error (.notFound publicationNumber), calls)
    | some [] => (.error (.notFound publicationNumber), calls)
    | some (patent :: _) =>
      match patent.applicationNumberText with
      | none => (.error (.malformedResponse publicationNumber), calls)
      | some t => (.ok t, calls)

/-- Go `Client.ResolvePatentNumber` (client.go). -/
def ResolvePatentNumber (search : SearchCap) (patentNumber : List Nat) :
    Except ResolveError (List Nat) × List SearchCall :=
  match NormalizePatentNumber patentNumber with
  | .error e => (.error (.invalidPatentNumber e), [])
  | .ok pn =>
    match pn.type with
    | .grant => resolveGrantToApplicationNumber search pn.normalized
    | .publication => resolvePublicationToApplicationNumber search pn.normalized
    | .application => (.ok (ToApplicationNumber pn), [])
    | .unknown => (.error .unknownType, [])

theorem resolveGrant_spec (search : SearchCap) (n : List Nat) :
    (resolveGrantToApplicationNumber search n).2 = [⟨grantSearchQuery n, 0, 1⟩] ∧
    (search (grantSearchQuery n) 0 1 = none →
      (resolveGrantToApplicationNumber search n).1 = .error .searchFailed) ∧
    (∀ r, search (grantSearchQuery n) 0 1 = some r →
      ((r.patentFileWrapperDataBag = none ∨ r.patentFileWrapperDataBag = some []) →
        (resolveGrantToApplicationNumber search n).1 = .error (.notFound n)) ∧
      (∀ p ps, r.patentFileWrapperDataBag = some (p :: ps) →
        (p.applicationNumberText = none →
          (resolveGrantToApplicationNumber search n).1 = .error (.malformedResponse n)) ∧
        (∀ a, p.applicationNumberText = some a →
          (resolveGrantToApplicationNumber search n).1 = .ok a))) := by
  rcases hs : search (grantSearchQuery n) 0 1 with _ | r
  · simp [resolveGrantToApplicationNumber, hs]
  · rcases hb : r.patentFileWrapperDataBag with _ | (_ | ⟨p, ps⟩)
    · simp [resolveGrantToApplicationNumber, hs, hb]
    · simp [resolveGrantToApplicationNumber, hs, hb]
    · rcases ha : p.applicationNumberText with _ | a
      · simp [resolveGrantToApplicationNumber, hs, hb, ha]
      · simp [resolveGrantToApplicationNumber, hs, hb, ha]

theorem resolvePublication_spec (search : SearchCap) (n : List Nat)
    (h11 : n.length = 11) (hpre : (str "US").isPrefixOf n = false) :
    (resolvePublicationToApplicationNumber search n).2 =
      [⟨publicationSearchQuery (str "US" ++ (n ++ str "A1")), 0, 1⟩] ∧
    (search (publicationSearchQuery (str "US" ++ (n ++ str "A1"))) 0 1 = none →
      (resolvePublicationToApplicationNumber search n).1 = .error .searchFailed) ∧
    (∀ r, search (publicationSearchQuery (str "US" ++ (n ++ str "A1"))) 0 1 = some r →
      ((r.patentFileWrapperDataBag = none ∨ r.patentFileWrapperDataBag = some []) →
        (resolvePublicationToApplicationNumber search n).1 = .error (.notFound n)) ∧
      (∀ p ps, r.patentFileWrapperDataBag = some (p :: ps) →
        (p.applicationNumberText = none →
          (resolvePublicationToApplicationNumber search n).1 =
            .error (.malformedResponse n)) ∧
        (∀ a, p.applicationNumberText = some a →
          (resolvePublicationToApplicationNumber search n).1 = .ok a))) := by
  rcases hs : search (publicationSearchQuery (str "US" ++ (n ++ str "A1"))) 0 1 with _ | r
  · simp [resolvePublicationToApplicationNumber, h11, hpre, hs]
  · rcases hb : r.patentFileWrapperDataBag with _ | (_ | ⟨p, ps⟩)
    · simp [resolvePublicationToApplicationNumber, h11, hpre, hs, hb]
    · simp [resolvePublicationToApplicationNumber, h11, hpre, hs, hb]
    · rcases ha : p.applicationNumberText with _ | a
      · simp [resolvePublicationToApplicationNumber, h11, hpre, hs, hb, ha]
      · simp [resolvePublicationToApplicationNumber, h11, hpre, hs, hb, ha]

theorem digits_not_USPrefixed {l : List Nat} (hd : ∀ c ∈ l, isDigitC c = true) :
    (str "US").isPrefixOf l = false := by
  cases l with
  | nil => rfl
  | cons c t =>
    have : c ≠ 85 := (digit_classes (hd c (by simp))).2.2.2.2.2.2.2
    show List.isPrefixOf [85, 83] (c :: t) = false
    simp [List.isPrefixOf, Ne.symm this]

/-- C5: for a patent number of kind Grant, resolution issues exactly one
search query, filtered by the patent-number field equal to `normalized`,
with offset 0 and limit 1; zero returned records give the not-found
error; a first record without the application-number field gives the
malformed-response error; otherwise that record's application number is
returned. -/
theorem C5_grant_resolution (search : SearchCap) (input : List Nat) (pn : PatentNumber)
    (h : NormalizePatentNumber input = .ok pn) (hg : pn.type = .grant) :
    (ResolvePatentNumber search input).2 = [⟨grantSearchQuery pn.normalized, 0, 1⟩] ∧
    (search (grantSearchQuery pn.normalized) 0 1 = none →
      (ResolvePatentNumber search input).1 = .error .searchFailed) ∧
    (∀ r, search (grantSearchQuery pn.normalized) 0 1 = some r →
      ((r.patentFileWrapperDataBag = none ∨ r.patentFileWrapperDataBag = some []) →
        (ResolvePatentNumber search input).1 = .error (.notFound pn.normalized)) ∧
      (∀ p ps, r.patentFileWrapperDataBag = some (p :: ps) →
        (p.applicationNumberText = none →
          (ResolvePatentNumber search input).1 =
            .error (.malformedResponse pn.normalized)) ∧
        (∀ a, p.applicationNumberText = some a →
          (ResolvePatentNumber search input).1 = .ok a))) := by
  have hres : ResolvePatentNumber search input =
      resolveGrantToApplicationNumber search pn.normalized := by
    simp [ResolvePatentNumber, h, hg]
  rw [hres]
  exact resolveGrant_spec search pn.normalized

theorem C5_grant_resolution_witness :
    (ResolvePatentNumber (fun _ _ _ => some ⟨some [⟨some (str "17248024")⟩]⟩)
      (str "9123456")).1 = .ok (str "17248024") :=
  (((C5_grant_resolution (fun _ _ _ => some ⟨some [⟨some (str "17248024")⟩]⟩)
      (str "9123456") ⟨str "9123456", str "9123456", [], .grant, str "US"⟩
      (by rfl) rfl).2.2 ⟨some [⟨some (str "17248024")⟩]⟩ rfl).2
    ⟨some (str "17248024")⟩ [] rfl).2 (str "17248024") rfl

/-- C6: for a patent number of kind Publication, the 11-digit normalized
value (which, being all digits, never has a US prefix) is re-formatted to
US + digits + A1 before querying by the publication-number field, with
the same zero-result and missing-field handling as Grant resolution; a
value that already has the US prefix would be passed through
unformatted. -/
theorem C6_publication_resolution (search : SearchCap) (input : List Nat)
    (pn : PatentNumber) (h : NormalizePatentNumber input = .ok pn)
    (hp : pn.type = .publication) :
    (ResolvePatentNumber search input).2 =
      [⟨publicationSearchQuery (str "US" ++ (pn.normalized ++ str "A1")), 0, 1⟩] ∧
    (∀ r, search (publicationSearchQuery (str "US" ++ (pn.normalized ++ str "A1")))
        0 1 = some r →
      ((r.patentFileWrapperDataBag = none ∨ r.patentFileWrapperDataBag = some []) →
        (ResolvePatentNumber search input).1 = .error (.notFound pn.normalized)) ∧
      (∀ p ps, r.patentFileWrapperDataBag = some (p :: ps) →
        (p.applicationNumberText = none →
          (ResolvePatentNumber search input).1 =
            .error (.malformedResponse pn.normalized)) ∧
        (∀ a, p.applicationNumberText = some a →
          (ResolvePatentNumber search input).1 = .ok a))) ∧
    (∀ v, (str "US").isPrefixOf v = true →
      (resolvePublicationToApplicationNumber search v).2 =
        [⟨publicationSearchQuery v, 0, 1⟩]) := by
  obtain ⟨-, -, -, hdig, -, hlen11, -, -⟩ := normalize_ok_spec h
  have h11 := hlen11 hp
  have hpre := digits_not_USPrefixed hdig
  have hres : ResolvePatentNumber search input =
      resolvePublicationToApplicationNumber search pn.normalized := by
    simp [ResolvePatentNumber, h, hp]
  obtain ⟨s1, -, s3⟩ := resolvePublication_spec search pn.normalized h11 hpre
  refine ⟨by rw [hres]; exact s1, by rw [hres]; exact s3, ?_⟩
  intro v hv
  rcases hs : search (publicationSearchQuery v) 0 1 with _ | r
  · simp [resolvePublicationToApplicationNumber, hv, hs]
  · rcases hb : r.patentFileWrapperDataBag with _ | (_ | ⟨p, ps⟩)
    · simp [resolvePublicationToApplicationNumber, hv, hs, hb]
    · simp [resolvePublicationToApplicationNumber, hv, hs, hb]
    · rcases ha : p.applicationNumberText with _ | a
      · simp [resolvePublicationToApplicationNumber, hv, hs, hb, ha]
      · simp [resolvePublicationToApplicationNumber, hv, hs, hb, ha]

theorem C6_publication_resolution_witness :
    (ResolvePatentNumber (fun _ _ _ => some ⟨some [⟨some (str "18123456")⟩]⟩)
      (str "20250087686")).1 = .ok (str "18123456") :=
  ((((C6_publication_resolution
      (fun _ _ _ => some ⟨some [⟨some (str "18123456")⟩]⟩) (str "20250087686")
      ⟨str "20250087686", str "20250087686", [], .publication, str "US"⟩
      (by rfl) rfl).2.1 ⟨some [⟨some (str "18123456")⟩]⟩ rfl).2
    ⟨some (str "18123456")⟩ [] rfl).2 (str "18123456") rfl)

/-- Go `Sub` (xml.go): subscript formatting span. -/
structure Sub where
  text : List Nat
deriving DecidableEq

/-- Go `Sup` (xml.go): superscript formatting span. -/
structure Sup where
  text : List Nat
deriving DecidableEq

/-- Go `Italic` (xml.go). -/
structure Italic where
  text : List Nat
deriving DecidableEq

/-- Go `Bold` (xml.go). -/
structure Bold where
  text : List Nat
deriving DecidableEq

/-- Go `Heading` (xml.go). -/
structure Heading where
  id : List Nat
  level : List Nat
  text : List Nat
deriving DecidableEq

/-- Go `Paragraph` (xml.go). -/
structure Paragraph where
  id : List Nat
  num : List Nat
  text : List Nat
  sub : List Sub
  sup : List Sup
  i : List Italic
  b : List Bold
deriving DecidableEq

/-- Go `ClaimText` (xml.go): claim text with recursively nested
claim-text elements and formatting spans. -/
inductive ClaimText where
  | mk (id : List Nat) (text : List Nat) (nestedClaims : List ClaimText)
      (sub : List Sub) (sup : List Sup) (i : List Italic) (b : List Bold)

/-- The `Text` field of a `ClaimText`. -/
def ClaimText.text : ClaimText → List Nat
  | .mk _ t _ _ _ _ _ => t

/-- The `NestedClaims` field of a `ClaimText`. -/
def ClaimText.nestedClaims : ClaimText → List ClaimText
  | .mk _ _ n _ _ _ _ => n

/-- Go `Claim` (xml.go). -/
structure Claim where
  id : List Nat
  num : List Nat
  claimText : List ClaimText

/-- Go `Claims` (xml.go). -/
structure Claims where
  id : List Nat
  lang : List Nat
  claimList : List Claim

/-- Go `Description` (xml.go). -/
structure Description where
  id : List Nat
  lang : List Nat
  headings : List Heading
  paragraphs : List Paragraph

/-- The code points of a blank-line separator, Go "\n\n". -/
def nl2 : List Nat := [10, 10]

/-- One `strings.Builder` step of the claim-text extractor: append a
fragment, preceded by a single space when both the builder and the
fragment are non-empty, skipping empty fragments. -/
def appendFragment (builder frag : List Nat) : List Nat :=
  if frag = [] then builder
  else if builder = [] then frag
  else builder ++ 32 :: frag

mutual

/-- Go `extractClaimTextRecursive` (xml.go): the loop body is
`extractClaimTextGo`; the final `strings.TrimSpace` is applied here. -/
def extractClaimTextRecursive (claimTexts : List ClaimText) (depth : Nat) : List Nat :=
  trimSpace (extractClaimTextGo claimTexts depth [])

/-- The loop of Go `extractClaimTextRecursive` with the builder made
explicit: for each node append its trimmed own text, then (when it has
nested claim-text elements) the recursively extracted nested text, each
with a single-space separator when the builder is non-empty. -/
def extractClaimTextGo : List ClaimText → Nat → List Nat → List Nat
  | [], _, builder => builder
  | .mk _ ctext nested _ _ _ _ :: rest, depth, builder =>
    let b1 := appendFragment builder (trimSpace ctext)
    let b2 :=
      if nested.isEmpty then b1
      else appendFragment b1 (extractClaimTextRecursive nested (depth + 1))
    extractClaimTextGo rest depth b2

end

/-- Go `Claim.ExtractClaimText` (xml.go); `none` models a nil receiver. -/
def ExtractClaimText : Option Claim → List Nat
  | none => []
  | some c => extractClaimTextRecursive c.claimText 0

/-- Go `extractParagraphText` (xml.go) on a non-nil paragraph. -/
def extractParagraphText (p : Paragraph) : List Nat := trimSpace p.text

/-- The shared shape of both loops in Go `ExtractDescriptionText`: write
each text, preceded by a blank line when the builder is already
non-empty.  (The `lastWasHeading` variable in the source selects between
two identical "\n\n" writes and so has no effect.) -/
def descWriteAll : List (List Nat) → List Nat → List Nat
  | [], builder => builder
  | t :: rest, builder =>
    descWriteAll rest ((if builder ≠ [] then builder ++ nl2 else builder) ++ t)

/-- Go `Description.ExtractDescriptionText` (xml.go): the headings loop,
then the paragraphs loop on the same builder, then a final trim; `none`
models a nil receiver. -/
def ExtractDescriptionText : Option Description → List Nat
  | none => []
  | some d =>
    let b1 := descWriteAll (d.headings.map (fun h => trimSpace h.text)) []
    let b2 := descWriteAll (d.paragraphs.map extractParagraphText) b1
    trimSpace b2

/-- Decimal value of a digit run (code points 48-57). -/
def digitsToNat (ds : List Nat) : Nat := ds.foldl (fun acc c => acc * 10 + (c - 48)) 0

/-- Go `fmt.Sscanf(s, "%d", &n)` for `n : int`.  The verb first skips
leading white space, but `Sscanf` does not treat newlines as space
(`nlIsSpace` is false for format-directed scanning): reaching a newline
during the skip is an "unexpected newline" error.  A carriage return is
consumed as space (when directly before a newline it is consumed first
and the newline then errors), so the skip drops White_Space other than
LF and fails if LF is reached.  Then an optional sign and a non-empty
maximal run of decimal digits (the rest of the input is left unread);
the value must fit in a signed 64-bit int, otherwise scanning fails. -/
def sscanfInt (s : List Nat) : Option Int :=
  let s1 := s.dropWhile (fun c => isUniSpace c && c != 10)
  match s1 with
  | 10 :: _ => none
  | _ =>
    let signed : Bool × List Nat :=
      match s1 with
      | 45 :: rest => (true, rest)
      | 43 :: rest => (false, rest)
      | _ => (false, s1)
    let ds := signed.2.takeWhile isDigitC
    if ds = [] then none
    else
      let v : Int :=
        if signed.1 then -(Int.ofNat (digitsToNat ds)) else Int.ofNat (digitsToNat ds)
      if -9223372036854775808 ≤ v ∧ v ≤ 9223372036854775807 then some v else none

/-- Go `fmt.Fprintf` verb `%d` for `int`. -/
def formatInt (v : Int) : List Nat :=
  if v < 0 then 45 :: (Nat.toDigits 10 v.natAbs).map Char.toNat
  else (Nat.toDigits 10 v.toNat).map Char.toNat

/-- The claim-number logic of Go `ExtractAllClaimsTextFormatted`: the
number scanned from the `Num` attribute when it is non-empty and scans
as an integer, else the 1-based position `i + 1`. -/
def claimNumberOf (i : Nat) (cl : Claim) : Int :=
  if cl.num ≠ [] then
    match sscanfInt cl.num with
    | some v => v
    | none => (i : Int) + 1
  else (i : Int) + 1

/-- The loop of Go `ExtractAllClaimsTextFormatted` with the builder and
the index made explicit: a "\n\n" separator before every block except
the first, then `CLAIM %d:\n%s`. -/
def formattedClaimsGo : List Claim → Nat → List Nat → List Nat
  | [], _, builder => builder
  | cl :: rest, i, builder =>
    let b1 := if i > 0 then builder ++ nl2 else builder
    let b2 := b1 ++ (str "CLAIM " ++ formatInt (claimNumberOf i cl) ++ (58 :: 10 :: []) ++
      ExtractClaimText (some cl))
    formattedClaimsGo rest (i + 1) b2

/-- Go `Claims.ExtractAllClaimsTextFormatted` (xml.go); `none` models a
nil receiver. -/
def ExtractAllClaimsTextFormatted : Option Claims → List Nat
  | none => []
  | some c =>
    if c.claimList.isEmpty then [] else formattedClaimsGo c.claimList 0 []

/-- The list does not start with a White_Space character. -/
def noLeadSpace (l : List Nat) : Prop := ∀ c, l.head? = some c → isUniSpace c = false

theorem noLeadSpace_dropWhile (l : List Nat) : noLeadSpace (l.dropWhile isUniSpace) := by
  induction l with
  | nil => intro c hc; cases hc
  | cons c t ih =>
    rw [List.dropWhile_cons]
    split
    · exact ih
    · next h =>
      intro x hx
      rw [List.head?_cons, Option.some.injEq] at hx
      subst hx
      exact Bool.eq_false_iff.mpr h

theorem dropWhile_eq_self_of_noLead {l : List Nat} (h : noLeadSpace l) :
    l.dropWhile isUniSpace = l := by
  cases l with
  | nil => rfl
  | cons c t => simp [List.dropWhile_cons, h c rfl]

theorem noLead_of_prefix {l1 l2 : List Nat} (h : l1 <+: l2) (h2 : noLeadSpace l2) :
    noLeadSpace l1 := by
  obtain ⟨t, rfl⟩ := h
  intro c hc
  apply h2 c
  cases l1 with
  | nil => cases hc
  | cons x xs => simpa using hc

theorem trimSpace_eq_self {l : List Nat} (h1 : noLeadSpace l) (h2 : noLeadSpace l.reverse) :
    trimSpace l = l := by
  unfold trimSpace
  rw [dropWhile_eq_self_of_noLead h1, dropWhile_eq_self_of_noLead h2, List.reverse_reverse]

theorem trimSpace_noLead (l : List Nat) :
    noLeadSpace (trimSpace l) ∧ noLeadSpace (trimSpace l).reverse := by
  constructor
  · have hsuf : ((l.dropWhile isUniSpace).reverse.dropWhile isUniSpace) <:+
        (l.dropWhile isUniSpace).reverse := List.dropWhile_suffix _
    have hpre := hsuf.reverse
    rw [List.reverse_reverse] at hpre
    exact noLead_of_prefix hpre (noLeadSpace_dropWhile l)
  · show noLeadSpace ((l.dropWhile isUniSpace).reverse.dropWhile isUniSpace).reverse.reverse
    rw [List.reverse_reverse]
    exact noLeadSpace_dropWhile _

theorem trimSpace_idem (l : List Nat) : trimSpace (trimSpace l) = trimSpace l :=
  trimSpace_eq_self (trimSpace_noLead l).1 (trimSpace_noLead l).2

theorem noLead_of_trimmed {l : List Nat} (h : trimSpace l = l) :
    noLeadSpace l ∧ noLeadSpace l.reverse := by
  rw [← h]
  exact trimSpace_noLead l

theorem appendFragment_nil_left (f : List Nat) : appendFragment [] f = f := by
  by_cases hf : f = [] <;> simp [appendFragment, hf]

theorem appendFragment_nil_right (b : List Nat) : appendFragment b [] = b := by
  simp [appendFragment]

theorem appendFragment_assoc (a b c : List Nat) :
    appendFragment (appendFragment a b) c = appendFragment a (appendFragment b c) := by
  by_cases hc : c = [] <;> by_cases hb : b = [] <;> by_cases ha : a = [] <;>
    simp [appendFragment, ha, hb, hc]

theorem appendFragment_trimmed {a b : List Nat} (ha : trimSpace a = a)
    (hb : trimSpace b = b) : trimSpace (appendFragment a b) = appendFragment a b := by
  unfold appendFragment
  split
  · exact ha
  · split
    · exact hb
    · next hbne hane =>
      obtain ⟨ha1, ha2⟩ := noLead_of_trimmed ha
      obtain ⟨hb1, hb2⟩ := noLead_of_trimmed hb
      apply trimSpace_eq_self
      · intro c hc
        cases a with
        | nil => exact absurd rfl hane
        | cons x xs =>
          apply ha1 c
          simpa using hc
      · intro c hc
        rw [List.reverse_append, List.reverse_cons] at hc
        cases hbr : b.reverse with
        | nil =>
          exact absurd (by simpa using congrArg List.reverse hbr) hbne
        | cons y ys =>
          rw [hbr] at hc
          have hyc : y = c := by simpa using hc
          subst hyc
          exact hb2 y (by rw [hbr]; rfl)

/-- The spec's fragment sequence: trimmed node texts in depth-first,
left-to-right order, a node's own text before its nested nodes'. -/
def claimForestTexts : List ClaimText → List (List Nat)
  | [] => []
  | .mk _ t nested _ _ _ _ :: rest =>
    (trimSpace t :: claimForestTexts nested) ++ claimForestTexts rest

/-- The spec's joining rule: concatenate the non-empty fragments with a
single space between consecutive ones. -/
def joinNonEmptyWithSpace : List (List Nat) → List Nat
  | [] => []
  | f :: rest =>
    let r := joinNonEmptyWithSpace rest
    if f = [] then r else if r = [] then f else f ++ 32 :: r

theorem joinNonEmptyWithSpace_cons (f : List Nat) (rest : List (List Nat)) :
    joinNonEmptyWithSpace (f :: rest) = appendFragment f (joinNonEmptyWithSpace rest) := by
  by_cases hf : f = [] <;> by_cases hr : joinNonEmptyWithSpace rest = [] <;>
    simp [joinNonEmptyWithSpace, appendFragment, hf, hr]

theorem joinNonEmptyWithSpace_append (xs ys : List (List Nat)) :
    joinNonEmptyWithSpace (xs ++ ys) =
      appendFragment (joinNonEmptyWithSpace xs) (joinNonEmptyWithSpace ys) := by
  induction xs with
  | nil => simp [joinNonEmptyWithSpace, appendFragment_nil_left]
  | cons f t ih =>
    rw [List.cons_append, joinNonEmptyWithSpace_cons, joinNonEmptyWithSpace_cons, ih,
      appendFragment_assoc]

theorem join_trimmed {l : List (List Nat)} (h : ∀ f ∈ l, trimSpace f = f) :
    trimSpace (joinNonEmptyWithSpace l) = joinNonEmptyWithSpace l := by
  induction l with
  | nil => rfl
  | cons f t ih =>
    rw [joinNonEmptyWithSpace_cons]
    exact appendFragment_trimmed (h f (by simp)) (ih fun g hg => h g (by simp [hg]))

theorem claimForestTexts_trimmed (cts : List ClaimText) :
    ∀ f ∈ claimForestTexts cts, trimSpace f = f := by
  match cts with
  | [] =>
    intro f hf
    rw [claimForestTexts] at hf
    cases hf
  | .mk cid t nested csub csup ci cb :: rest =>
    intro f hf
    rw [claimForestTexts] at hf
    rcases List.mem_append.mp hf with h1 | h2
    · rcases List.mem_cons.mp h1 with rfl | h1n
      · exact trimSpace_idem t
      · exact claimForestTexts_trimmed nested f h1n
    · exact claimForestTexts_trimmed rest f h2
termination_by sizeOf cts

theorem extractClaimTextGo_eq (cts : List ClaimText) (depth : Nat) (builder : List Nat) :
    extractClaimTextGo cts depth builder =
      appendFragment builder (joinNonEmptyWithSpace (claimForestTexts cts)) := by
  match cts with
  | [] =>
    rw [extractClaimTextGo, claimForestTexts]
    rw [show joinNonEmptyWithSpace [] = [] from rfl, appendFragment_nil_right]
  | .mk cid t nested csub csup ci cb :: rest =>
    have hE : extractClaimTextRecursive nested (depth + 1) =
        joinNonEmptyWithSpace (claimForestTexts nested) := by
      rw [extractClaimTextRecursive, extractClaimTextGo_eq nested (depth + 1) [],
        appendFragment_nil_left]
      exact join_trimmed (claimForestTexts_trimmed nested)
    rw [extractClaimTextGo]
    by_cases hne : nested.isEmpty
    · have hnil : nested = [] := by
        cases nested
        · rfl
        · cases hne
      subst hnil
      rw [if_pos List.isEmpty_nil, extractClaimTextGo_eq rest depth, claimForestTexts]
      rw [show claimForestTexts [] = [] from by rw [claimForestTexts]]
      simp [joinNonEmptyWithSpace_append, joinNonEmptyWithSpace_cons,
        appendFragment_nil_right, appendFragment_assoc]
    · rw [if_neg hne, hE, extractClaimTextGo_eq rest depth, claimForestTexts]
      simp [joinNonEmptyWithSpace_append, joinNonEmptyWithSpace_cons, appendFragment_assoc]
termination_by sizeOf cts

/-- C2: the extracted text of a claim is exactly the depth-first,
left-to-right sequence of its nodes' trimmed texts (a node's own text
first, then its nested nodes' texts in order), with the non-empty
fragments joined by single spaces; empty-only nodes contribute nothing,
and the formatting-span fields contribute no characters (the fragment
sequence is built from the `text` fields alone). -/
theorem C2_claim_text_depth_first (cl : Claim) :
    ExtractClaimText (some cl) = joinNonEmptyWithSpace (claimForestTexts cl.claimText) := by
  show extractClaimTextRecursive cl.claimText 0 = _
  rw [extractClaimTextRecursive, extractClaimTextGo_eq, appendFragment_nil_left]
  exact join_trimmed (claimForestTexts_trimmed _)

/-- The spec's block joiner for descriptions and formatted claims:
items joined by blank lines ("\n\n"). -/
def joinAllWithBlankLine (l : List (List Nat)) : List Nat := (l.intersperse nl2).flatten

theorem joinAll_cons_ne {x : List Nat} {ys : List (List Nat)} (h : ys ≠ []) :
    joinAllWithBlankLine (x :: ys) = x ++ nl2 ++ joinAllWithBlankLine ys := by
  cases ys with
  | nil => exact absurd rfl h
  | cons y t => simp [joinAllWithBlankLine]

theorem joinAll_cons_map (x : List Nat) (rest : List (List Nat)) :
    joinAllWithBlankLine (x :: rest) = x ++ (rest.map (fun r => nl2 ++ r)).flatten := by
  induction rest generalizing x with
  | nil => simp [joinAllWithBlankLine]
  | cons y t ih =>
    rw [joinAll_cons_ne (by simp), ih y]
    simp

theorem joinAll_append_ne {xs ys : List (List Nat)} (hx : xs ≠ []) (hy : ys ≠ []) :
    joinAllWithBlankLine (xs ++ ys) =
      joinAllWithBlankLine xs ++ nl2 ++ joinAllWithBlankLine ys := by
  induction xs with
  | nil => exact absurd rfl hx
  | cons x t ih =>
    cases t with
    | nil =>
      rw [List.cons_append, List.nil_append, joinAll_cons_ne hy]
      simp [joinAllWithBlankLine]
    | cons x2 t2 =>
      rw [List.cons_append, joinAll_cons_ne (by simp), joinAll_cons_ne (by simp),
        ih (by simp) ]
      simp

theorem dropWhile_append_left_all {p : Nat → Bool} {xs ys : List Nat}
    (h : ∀ x ∈ xs, p x = true) : (xs ++ ys).dropWhile p = ys.dropWhile p := by
  induction xs with
  | nil => rfl
  | cons c t ih =>
    rw [List.cons_append, List.dropWhile_cons, if_pos (h c (by simp))]
    exact ih fun x hx => h x (by simp [hx])

theorem dropWhile_append_left_stop {p : Nat → Bool} {xs ys : List Nat}
    (h : xs.dropWhile p ≠ []) : (xs ++ ys).dropWhile p = xs.dropWhile p ++ ys := by
  induction xs with
  | nil => exact absurd rfl h
  | cons c t ih =>
    rw [List.cons_append, List.dropWhile_cons, List.dropWhile_cons]
    split
    · next hpc =>
      rw [List.dropWhile_cons, if_pos hpc] at h
      exact ih h
    · simp

theorem trimSpace_spaces_append {xs F : List Nat} (h : ∀ x ∈ xs, isUniSpace x = true) :
    trimSpace (xs ++ F) = trimSpace F := by
  unfold trimSpace
  rw [dropWhile_append_left_all h]

theorem trimSpace_append_spaces {F xs : List Nat} (h : ∀ x ∈ xs, isUniSpace x = true) :
    trimSpace (F ++ xs) = trimSpace F := by
  unfold trimSpace
  rcases hF : F.dropWhile isUniSpace with _ | ⟨c, t⟩
  · have hFall : ∀ x ∈ F, isUniSpace x = true := by
      intro x hx
      by_contra hxs
      have hne : F.dropWhile isUniSpace ≠ [] := by
        intro hdw
        have := List.dropWhile_eq_nil_iff.mp hdw x hx
        exact hxs this
      exact hne hF
    have hxsdw : xs.dropWhile isUniSpace = [] := List.dropWhile_eq_nil_iff.mpr h
    simp only [dropWhile_append_left_all hFall, hF, hxsdw, List.reverse_nil]
  · rw [dropWhile_append_left_stop (by rw [hF]; simp), hF, List.reverse_append,
      dropWhile_append_left_all (fun x hx => h x (List.mem_reverse.mp hx))]

theorem descWriteAll_append (xs ys : List (List Nat)) (b : List Nat) :
    descWriteAll (xs ++ ys) b = descWriteAll ys (descWriteAll xs b) := by
  induction xs generalizing b with
  | nil => rfl
  | cons t rest ih => rw [List.cons_append, descWriteAll, descWriteAll, ih]

theorem descWriteAll_of_ne {b : List Nat} (ts : List (List Nat)) (h : b ≠ []) :
    descWriteAll ts b = b ++ (ts.map (fun t => nl2 ++ t)).flatten := by
  induction ts generalizing b with
  | nil => simp [descWriteAll]
  | cons t rest ih =>
    rw [descWriteAll, if_pos h, ih (by simp [nl2])]
    simp

theorem joinAll_eq_pad (ts : List (List Nat)) :
    ∃ k, joinAllWithBlankLine ts =
      (List.replicate k nl2).flatten ++ descWriteAll ts [] := by
  induction ts with
  | nil => exact ⟨0, rfl⟩
  | cons t rest ih =>
    have hstep : descWriteAll (t :: rest) [] = descWriteAll rest t := by
      rw [descWriteAll]
      simp
    by_cases ht : t = []
    · subst ht
      rw [hstep]
      cases hr : rest with
      | nil => exact ⟨0, by simp [joinAllWithBlankLine, descWriteAll]⟩
      | cons r rs =>
        obtain ⟨k, hk⟩ := ih
        rw [hr] at hk
        refine ⟨k + 1, ?_⟩
        rw [joinAll_cons_ne (List.cons_ne_nil r rs), hk, List.replicate_succ]
        simp
    · refine ⟨0, ?_⟩
      rw [hstep, descWriteAll_of_ne rest ht, joinAll_cons_map]
      simp

theorem pad_spaces (k : Nat) :
    ∀ x ∈ (List.replicate k nl2).flatten, isUniSpace x = true := by
  intro x hx
  rw [List.mem_flatten] at hx
  obtain ⟨l, hl, hxl⟩ := hx
  rw [List.mem_replicate] at hl
  rw [hl.2] at hxl
  have hx10 : x = 10 := by simpa [nl2] using hxl
  subst hx10
  decide

theorem nl2_spaces : ∀ x ∈ nl2, isUniSpace x = true := by decide

/-- C7: the description text is all trimmed headings joined by blank
lines, then a blank-line separator, then all trimmed paragraphs joined by
blank lines (up to the final trim the source applies); the heading block
always precedes the paragraph block, whatever the original document
interleaving was; a missing description yields the empty string. -/
theorem C7_description_heading_block_first :
    (∀ d : Description,
      ExtractDescriptionText (some d) =
        trimSpace
          (joinAllWithBlankLine (d.headings.map (fun h => trimSpace h.text)) ++ nl2 ++
            joinAllWithBlankLine (d.paragraphs.map (fun p => trimSpace p.text)))) ∧
    ExtractDescriptionText none = [] := by
  refine ⟨?_, rfl⟩
  intro d
  have hcode : ExtractDescriptionText (some d) =
      trimSpace (descWriteAll
        (d.headings.map (fun h => trimSpace h.text) ++
          d.paragraphs.map (fun p => trimSpace p.text)) []) := by
    rw [descWriteAll_append]
    rfl
  rw [hcode]
  obtain ⟨k, hk⟩ := joinAll_eq_pad
    (d.headings.map (fun h => trimSpace h.text) ++ d.paragraphs.map (fun p => trimSpace p.text))
  have h1 := trimSpace_spaces_append (F := descWriteAll
      (d.headings.map (fun h => trimSpace h.text) ++
        d.paragraphs.map (fun p => trimSpace p.text)) []) (pad_spaces k)
  rw [← hk] at h1
  rw [← h1]
  rcases hH : d.headings.map (fun h => trimSpace h.text) with _ | ⟨h0, Ht⟩
  · rw [hH]
    simp only [List.nil_append]
    rw [show joinAllWithBlankLine [] = [] from rfl, List.nil_append,
      trimSpace_spaces_append nl2_spaces]
  · rcases hP : d.paragraphs.map (fun p => trimSpace p.text) with _ | ⟨p0, Pt⟩
    · rw [hP]
      simp only [List.append_nil]
      rw [show joinAllWithBlankLine [] = [] from rfl, List.append_nil,
        trimSpace_append_spaces nl2_spaces]
    · rw [joinAll_append_ne (by rw [hH]; simp) (by rw [hP]; simp)]

/-- One formatted claim block, `CLAIM %d:` then a newline then the
claim's extracted text. -/
def claimBlock (i : Nat) (cl : Claim) : List Nat :=
  str "CLAIM " ++ formatInt (claimNumberOf i cl) ++ (58 :: 10 :: []) ++
    ExtractClaimText (some cl)

/-- The spec's block sequence: one block per claim in order, numbered
from the claim's declared number attribute when it scans as an integer,
else its 1-based position. -/
def claimBlocks : List Claim → Nat → List (List Nat)
  | [], _ => []
  | cl :: rest, i => claimBlock i cl :: claimBlocks rest (i + 1)

theorem formattedClaimsGo_pos (l : List Claim) (i : Nat) (hi : 0 < i) (b : List Nat) :
    formattedClaimsGo l i b =
      b ++ ((claimBlocks l i).map (fun t => nl2 ++ t)).flatten := by
  induction l generalizing i b with
  | nil => simp [formattedClaimsGo, claimBlocks]
  | cons cl rest ih =>
    rw [formattedClaimsGo, if_pos hi, claimBlocks, ih (i + 1) (by omega)]
    simp [claimBlock]

theorem claimBlocks_length (l : List Claim) (i : Nat) :
    (claimBlocks l i).length = l.length := by
  induction l generalizing i with
  | nil => rfl
  | cons cl rest ih => rw [claimBlocks, List.length_cons, ih, List.length_cons]

/-- C8: the formatted output is exactly one `CLAIM n:` block per claim
in order (so N claims give N blocks), the blocks joined by blank lines,
with n read from the claim's declared number attribute when it scans as
an integer and falling back to the claim's 1-based position. -/
theorem C8_formatted_claim_blocks (c : Claims) :
    ExtractAllClaimsTextFormatted (some c) =
      joinAllWithBlankLine (claimBlocks c.claimList 0) ∧
    (claimBlocks c.claimList 0).length = c.claimList.length := by
  refine ⟨?_, claimBlocks_length c.claimList 0⟩
  show (if c.claimList.isEmpty then [] else formattedClaimsGo c.claimList 0 []) = _
  rcases hl : c.claimList with _ | ⟨cl, rest⟩
  · rw [if_pos (by rw [List.isEmpty_nil])]
    rfl
  · rw [if_neg (by simp), formattedClaimsGo, if_neg (by omega), claimBlocks,
      formattedClaimsGo_pos rest 1 (by omega), joinAll_cons_map]
    simp [claimBlock]

/-- Abstract model of a byte input to the XML parser: either
structurally malformed XML (including empty input), or a well-formed
document with the given root element local name.  This is the interface
of Go encoding/xml that ParseXMLWithType depends on. -/
inductive XMLInput where
  | malformed
  | wellFormed (rootLocal : List Nat)
deriving DecidableEq

/-- The two kinds of Go `encoding/xml.Unmarshal` failure relevant here:
structural syntax errors, and the documented rejection of a root element
whose name does not match the target struct's tagged `XMLName` field
("expected element type <a> but have <b>", which carries both names). -/
inductive UnmarshalError where
  | syntaxError
  | elementMismatch (expected actual : List Nat)
deriving DecidableEq

/-- Go `xml.Unmarshal` into a struct whose `XMLName` field is tagged
with `expected`: per the encoding/xml documentation the XML element must
have the given name or Unmarshal returns an error; on success the root
name is recorded in the `XMLName` field (returned here). -/
def xmlUnmarshalNamed (expected : List Nat) : XMLInput → Except UnmarshalError (List Nat)
  | .malformed => .error .syntaxError
  | .wellFormed root =>
    if root = expected then .ok root else .error (.elementMismatch expected root)

/-- Go `DocumentType` (xml.go). -/
inductive DocumentType where
  | unknown
  | grant
  | application
deriving DecidableEq

/-- The root element name of the grant grammar. -/
def grantRootName : List Nat := str "us-patent-grant"

/-- The root element name of the application grammar. -/
def applicationRootName : List Nat := str "us-patent-application"

/-- Go `XMLDocument` restricted to which variant was populated (the
payload fields play no role in the parser-dispatch claims). -/
inductive XMLDocument where
  | grantDoc (rootLocal : List Nat)
  | applicationDoc (rootLocal : List Nat)
deriving DecidableEq

/-- The errors `ParseXMLWithType` can return, one constructor per
`fmt.Errorf` construction in the source.  `grantRootMismatch` and
`applicationRootMismatch` are the explicit post-unmarshal root checks;
`invalidDocumentType` is the final fall-through (unreachable for the
three-valued `DocumentType`). -/
inductive ParseError where
  | failedToParseAsGrant (e : UnmarshalError)
  | failedToParseAsApplication (e : UnmarshalError)
  | grantRootMismatch (actual : List Nat)
  | applicationRootMismatch (actual : List Nat)
  | unrecognizedDocumentType
  | invalidDocumentType
deriving DecidableEq

/-- Go `ParseXMLWithType` (xml.go). -/
def ParseXMLWithType (data : XMLInput) (expectedType : DocumentType) :
    Except ParseError XMLDocument :=
  match expectedType with
  | .grant =>
    match xmlUnmarshalNamed grantRootName data with
    | .error e => .error (.failedToParseAsGrant e)
    | .ok root =>
      if root ≠ grantRootName then .error (.grantRootMismatch root)
      else .ok (.grantDoc root)
  | .application =>
    match xmlUnmarshalNamed applicationRootName data with
    | .error e => .error (.failedToParseAsApplication e)
    | .ok root =>
      if root ≠ applicationRootName then .error (.applicationRootMismatch root)
      else .ok (.applicationDoc root)
  | .unknown =>
    match xmlUnmarshalNamed grantRootName data with
    | .ok root => .ok (.grantDoc root)
    | .error _ =>
      match xmlUnmarshalNamed applicationRootName data with
      | .ok root => .ok (.applicationDoc root)
      | .error _ => .error .unrecognizedDocumentType

/-- The spec's `DocumentTypeMismatchError{expected, actual}` class: a
parse error recording a root-name mismatch for the given expected root.
Because encoding/xml itself enforces the tagged `XMLName` during
Unmarshal, the mismatch surfaces as the decoder's element-mismatch
error wrapped in the failed-to-parse error; the source's dedicated
root-mismatch constructions (also in this class) are unreachable. -/
def isDocumentTypeMismatch (expected : List Nat) : ParseError → Bool
  | .failedToParseAsGrant (.elementMismatch exp _) => exp == expected
  | .failedToParseAsApplication (.elementMismatch exp _) => exp == expected
  | .grantRootMismatch _ => grantRootName == expected
  | .applicationRootMismatch _ => applicationRootName == expected
  | _ => false

/-- The spec's `MalformedXMLError` class: a parse failure wrapping a
structural XML syntax error. -/
def isMalformedXML : ParseError → Bool
  | .failedToParseAsGrant .syntaxError => true
  | .failedToParseAsApplication .syntaxError => true
  | _ => false

/-- C4: with an explicit expected kind, a well-formed document of the
wrong grammar fails with a document-type-mismatch error identifying the
expected root, and structurally malformed input fails with a
malformed-XML error; in particular an application-grammar document
parsed as Grant fails with a mismatch error, and symmetrically. -/
theorem C4_explicit_type_mismatch (root : List Nat) :
    (root ≠ grantRootName →
      ∃ e, ParseXMLWithType (.wellFormed root) .grant = .error e ∧
        isDocumentTypeMismatch grantRootName e = true) ∧
    (root ≠ applicationRootName →
      ∃ e, ParseXMLWithType (.wellFormed root) .application = .error e ∧
        isDocumentTypeMismatch applicationRootName e = true) ∧
    (∃ e, ParseXMLWithType .malformed .grant = .error e ∧ isMalformedXML e = true) ∧
    (∃ e, ParseXMLWithType .malformed .application = .error e ∧ isMalformedXML e = true) := by
  refine ⟨?_, ?_, ⟨.failedToParseAsGrant .syntaxError, rfl, rfl⟩,
    ⟨.failedToParseAsApplication .syntaxError, rfl, rfl⟩⟩
  · intro hne
    refine ⟨.failedToParseAsGrant (.elementMismatch grantRootName root), ?_, ?_⟩
    · simp [ParseXMLWithType, xmlUnmarshalNamed, hne]
    · simp [isDocumentTypeMismatch]
  · intro hne
    refine ⟨.failedToParseAsApplication (.elementMismatch applicationRootName root), ?_, ?_⟩
    · simp [ParseXMLWithType, xmlUnmarshalNamed, hne]
    · simp [isDocumentTypeMismatch]

theorem C4_explicit_type_mismatch_witness :
    (∃ e, ParseXMLWithType (.wellFormed applicationRootName) .grant = .error e ∧
      isDocumentTypeMismatch grantRootName e = true) ∧
    (∃ e, ParseXMLWithType (.wellFormed grantRootName) .application = .error e ∧
      isDocumentTypeMismatch applicationRootName e = true) :=
  ⟨(C4_explicit_type_mismatch applicationRootName).1 (by decide),
    (C4_explicit_type_mismatch grantRootName).2.1 (by decide)⟩

end Odp
